import Mathlib

/-!
Shallow embedding of the URL-shortener service (JavaScript sources:
`utils/urlShortener.js`, `services/urlService.js`, `config/database.js`,
`config/redis.js`, `server.js`).  JavaScript strings are modelled as
`List Char` in the string-utility layer and as `String` at the service
layer; JavaScript numbers used as integer counters/ids are modelled as
exact integers (`Nat`/`Int`).  Stateful code is modelled by explicit
state passing over a `Store` (the PostgreSQL tables) and a `Cache`
(the Redis key space).
-/

namespace UrlShortener

/-! ## Code generator utilities (utils/urlShortener.js) -/

/-- The Base62 character set, from
`const BASE62_CHARS = '0123456789abcdefghijklmnopqrstuvwxyzABCDEFGHIJKLMNOPQRSTUVWXYZ'`. -/
def BASE62_CHARS : List Char :=
  "0123456789abcdefghijklmnopqrstuvwxyzABCDEFGHIJKLMNOPQRSTUVWXYZ".data

theorem BASE62_CHARS_length : BASE62_CHARS.length = 62 := by decide

/-- `BASE62_CHARS[n % 62]` — indexing the alphabet by a byte reduced mod 62. -/
def b62char (n : Nat) : Char :=
  BASE62_CHARS.get ⟨n % 62, by
    have hl : BASE62_CHARS.length = 62 := by decide
    have := Nat.mod_lt n (show 0 < 62 by decide)
    omega⟩

/-- `generateShortCode`: each random byte `b` contributes the symbol
`BASE62_CHARS[b % 62]`.  The stream of random bytes produced by
`crypto.randomBytes(length)` is the explicit argument; its length is the
requested code length. -/
def generateShortCode (bytes : List Nat) : List Char :=
  bytes.map b62char

/-- The while loop of `encodeBase62`: `encoded = BASE62_CHARS[num % 62] + encoded`
then `num = Math.floor(num / 62)`, while `num > 0`. -/
def encodeLoop (n : Nat) (acc : List Char) : List Char :=
  if h : n = 0 then acc
  else encodeLoop (n / 62) (b62char (n % 62) :: acc)
termination_by n
decreasing_by
  exact Nat.div_lt_self (Nat.pos_of_ne_zero h) (by decide)

/-- `encodeBase62(num)`: `if (num === 0) return BASE62_CHARS[0]`, else the loop. -/
def encodeBase62 (n : Nat) : List Char :=
  if n = 0 then [b62char 0] else encodeLoop n []

/-- `BASE62_CHARS.indexOf(c)`: index of `c` in the alphabet, `-1` when absent. -/
def b62Index (c : Char) : Int :=
  match BASE62_CHARS.indexOf? c with
  | some i => (i : Int)
  | none => -1

/-- `decodeBase62(str)`: `decoded = decoded * 62 + BASE62_CHARS.indexOf(str[i])`
over the characters in order. -/
def decodeBase62 (l : List Char) : Int :=
  l.foldl (fun a c => a * 62 + b62Index c) 0

/-! ## URL validation and normalization (utils/urlShortener.js) -/

/-- The result of the WHATWG `new URL(...)` parse; only the `protocol`
field is consulted by the source. -/
structure UrlParts where
  protocol : String
deriving DecidableEq

/-- `isValidUrl(url)`: `try { const u = new URL(url); return u.protocol === 'http:'
|| u.protocol === 'https:' } catch { return false }`.  The platform URL parser
is an external collaborator, passed in as `parseURL`; a parse failure
(the thrown `TypeError`) is its `none` result, which the catch branch maps
to `false`. -/
def isValidUrl (parseURL : String → Option UrlParts) (url : String) : Bool :=
  match parseURL url with
  | some u => u.protocol == "http:" || u.protocol == "https:"
  | none => false

/-- Whitespace characters removed by `String.prototype.trim`: the
ECMA-262 WhiteSpace set (TAB, VT, FF, SPACE, NBSP, ZWNBSP and every
Space_Separator code point) together with the LineTerminator set
(LF, CR, LS, PS). -/
def wsp (c : Char) : Bool :=
  c == ' ' || c == '\t' || c == '\n' || c == '\r' || c == '\x0b' || c == '\x0c' ||
    c == '\xa0' || c == '\u1680' ||
    (decide (0x2000 ≤ c.toNat) && decide (c.toNat ≤ 0x200a)) ||
    c == '\u2028' || c == '\u2029' || c == '\u202f' || c == '\u205f' ||
    c == '\u3000' || c == '\ufeff'

/-- `url.trim()`: strip leading and trailing whitespace. -/
def trimChars (l : List Char) : List Char :=
  (((l.dropWhile wsp).reverse).dropWhile wsp).reverse

/-- One case-insensitive character match of the regex `/^https?:\/\//i`:
the (lowercase or symbol) pattern character `p` matches `c` itself or its
uppercase form. -/
def ciEq (p c : Char) : Bool :=
  c == p || c == p.toUpper

/-- Case-insensitive prefix match, character by character. -/
def startsCI : List Char → List Char → Bool
  | [], _ => true
  | _ :: _, [] => false
  | p :: ps, c :: cs => ciEq p c && startsCI ps cs

/-- `normalized.match(/^https?:\/\//i)`: the string starts (case-insensitively)
with `http://` or `https://`. -/
def hasProtocol (l : List Char) : Bool :=
  startsCI "http://".data l || startsCI "https://".data l

/-- `normalized.replace(/\/$/, '')`: remove a single trailing slash. -/
def stripSlash (l : List Char) : List Char :=
  if l.getLast? == some '/' then l.dropLast else l

/-- `normalizeUrl(url)`: trim, prepend `https://` when no protocol matches,
then strip one trailing slash. -/
def normalizeUrl (u : List Char) : List Char :=
  let t := trimChars u
  let n := if hasProtocol t then t else ("https://".data ++ t)
  stripSlash n

/-- `normalizeUrl` at the `String` interface used by the service layer. -/
def normalizeUrlS (s : String) : String :=
  ⟨normalizeUrl s.data⟩

/-! ## Data model (schema.sql / init-db.js) -/

/-- A row of the `urls` table:
`urls(id, short_code UNIQUE, original_url, created_at, click_count default 0, last_accessed)`. -/
structure UrlRow where
  id : Nat
  short_code : String
  original_url : String
  created_at : Nat
  click_count : Nat
  last_accessed : Option Nat
deriving DecidableEq

/-- A row of the `clicks` table:
`clicks(id, short_code REFERENCES urls, clicked_at, ip_address, user_agent, referrer)`.
The synthetic id and timestamp play no role in the claims and are elided. -/
structure ClickRow where
  short_code : String
  ip_address : Option String
  user_agent : Option String
  referrer : Option String
deriving DecidableEq

/-- The durable PostgreSQL state: both tables plus the `SERIAL` id counter. -/
structure Store where
  urls : List UrlRow
  clicks : List ClickRow
  nextId : Nat
deriving DecidableEq

/-- The cached projection stored under `url:<shortCode>`. -/
structure CacheVal where
  originalUrl : String
  shortCode : String
deriving DecidableEq

/-- The Redis key space: the `url:*` entries and the `clicks:*` counters.
The gateway in `config/redis.js` swallows every Redis failure
(get returns null, set returns false, incr returns null), so at the
service boundary the cache is a total key-value state. -/
structure Cache where
  entries : List (String × CacheVal)
  counters : List (String × Nat)
deriving DecidableEq

/-- `cache.get(key)`: lookup, `none` for a miss. -/
def cacheGet (c : Cache) (k : String) : Option CacheVal :=
  (c.entries.find? (fun p => p.1 == k)).map (fun p => p.2)

/-- `cache.set(key, value)`: overwrite the entry for `key`. -/
def cacheSet (c : Cache) (k : String) (v : CacheVal) : Cache :=
  { c with entries := (k, v) :: c.entries.filter (fun p => !(p.1 == k)) }

/-- Lookup of an ephemeral counter. -/
def counterGet (c : Cache) (k : String) : Option Nat :=
  (c.counters.find? (fun p => p.1 == k)).map (fun p => p.2)

/-- Modelled from the spec: `cache.incr(key)` calls Redis `INCR`, whose
semantics (`incr(key) -> integer, creates at 1 if absent`, spec section 4.2)
live in the external Redis server, not in the sources. -/
def cacheIncr (c : Cache) (k : String) : Cache :=
  match counterGet c k with
  | some n => { c with counters := (k, n + 1) :: c.counters.filter (fun p => !(p.1 == k)) }
  | none => { c with counters := (k, 1) :: c.counters.filter (fun p => !(p.1 == k)) }

/-! ## Durable store gateway (the parameterized queries of urlService.js)

`db.query` (config/database.js) forwards the pool's result and re-throws
its error, so a database error propagates to the service layer. -/

/-- A database-level error; the unique constraint on `short_code`
(and the foreign key on `clicks.short_code`) raise it. -/
inductive DbErr
  | constraintViolation
deriving DecidableEq

/-- `SELECT short_code, original_url FROM urls WHERE original_url = $1`,
reduced to its first row (only `rows[0]` / `rows.length` are consulted). -/
def findByUrl (st : Store) (url : String) : Option UrlRow :=
  st.urls.find? (fun r => r.original_url == url)

/-- `SELECT ... FROM urls WHERE short_code = $1`, reduced to its first row. -/
def findByCode (st : Store) (code : String) : Option UrlRow :=
  st.urls.find? (fun r => r.short_code == code)

/-- `INSERT INTO urls (short_code, original_url) VALUES ($1,$2) RETURNING ...`:
fails with a constraint violation when `short_code` already exists
(UNIQUE constraint), otherwise appends the new row. -/
def dbInsertUrl (st : Store) (code url : String) (now : Nat) :
    Except DbErr (UrlRow × Store) :=
  if st.urls.any (fun r => r.short_code == code) then
    .error .constraintViolation
  else
    let row : UrlRow := ⟨st.nextId, code, url, now, 0, none⟩
    .ok (row, { st with urls := st.urls ++ [row], nextId := st.nextId + 1 })

/-- The per-row effect of the click-count `UPDATE`: a row matching the
`WHERE short_code = $1` filter gets `click_count + 1` and a fresh
`last_accessed`; other rows are untouched. -/
def touchRow (code : String) (now : Nat) (r : UrlRow) : UrlRow :=
  if r.short_code == code then
    { r with click_count := r.click_count + 1, last_accessed := some now }
  else r

/-- `UPDATE urls SET click_count = click_count + 1, last_accessed =
CURRENT_TIMESTAMP WHERE short_code = $1`: touches exactly the matching rows. -/
def updateUrlClicks (st : Store) (code : String) (now : Nat) : Store :=
  { st with urls := st.urls.map (touchRow code now) }

/-- `metadata.x || null`: a JavaScript falsy field (absent or empty string)
becomes SQL NULL. -/
def orNull (o : Option String) : Option String :=
  match o with
  | some s => if s == "" then none else some s
  | none => none

/-- JavaScript truthiness of an optional string field. -/
def truthy (o : Option String) : Bool :=
  match o with
  | some s => !(s == "")
  | none => false

/-- `INSERT INTO clicks (short_code, ip_address, user_agent, referrer)
VALUES ($1,$2,$3,$4)`: the foreign key `clicks.short_code REFERENCES
urls(short_code)` makes the insert fail when the code has no urls row. -/
def dbInsertClick (st : Store) (code : String) (ip ua ref : Option String) :
    Except DbErr Store :=
  if st.urls.any (fun r => r.short_code == code) then
    .ok { st with clicks := st.clicks ++ [⟨code, orNull ip, orNull ua, orNull ref⟩] }
  else
    .error .constraintViolation

/-! ## Resolution service (services/urlService.js)

Service functions are explicit state transformers over `Store × Cache`.
A thrown JavaScript error is an `Except.error`; the world state at the
moment of the throw is returned alongside, since an exception does not
roll back database or cache effects that already happened. -/

/-- An error surfaced by `createShortUrl` to its caller. -/
inductive SvcErr
  | invalidUrl
  | codeSpaceExhausted
  | dbErr : DbErr → SvcErr
deriving DecidableEq

/-- The object returned by `createShortUrl` (`createdAt` is present only
on the `isNew` branch, as in the source). -/
structure CreateResult where
  shortCode : String
  originalUrl : String
  shortUrl : String
  createdAt : Option Nat
  isNew : Bool
deriving DecidableEq

/-- The `while (attempts < maxAttempts)` loop of `createShortUrl`:
generate `gen i`, run the collision `SELECT`, break on a free code,
otherwise `attempts++`.  `fuel` is `maxAttempts - attempts`; the result
is the chosen code, or `none` when `attempts` reaches `maxAttempts`. -/
def codeSearch (gen : Nat → String) (st : Store) : Nat → Nat → Option String
  | _, 0 => none
  | i, fuel + 1 =>
    if st.urls.any (fun r => r.short_code == gen i) then
      codeSearch gen st (i + 1) fuel
    else
      some (gen i)

/-- `createShortUrl(originalUrl)`.  Parameters beyond the source's one:
`parseURL` (the platform URL parser used by `isValidUrl`), `gen` (the
stream of codes produced by successive `generateShortCode()` calls),
`baseUrl` (`process.env.BASE_URL`) and `now` (the database clock). -/
def createShortUrl (parseURL : String → Option UrlParts) (gen : Nat → String)
    (baseUrl : String) (now : Nat) (originalUrl : String) :
    Store × Cache → (Store × Cache) × Except SvcErr CreateResult :=
  fun (st, c) =>
    if !(isValidUrl parseURL originalUrl) then
      ((st, c), .error .invalidUrl)
    else
      let normalized := normalizeUrlS originalUrl
      match findByUrl st normalized with
      | some existing =>
        let c1 := cacheSet c ("url:" ++ existing.short_code)
          ⟨existing.original_url, existing.short_code⟩
        ((st, c1), .ok ⟨existing.short_code, existing.original_url,
          baseUrl ++ "/" ++ existing.short_code, none, false⟩)
      | none =>
        match codeSearch gen st 0 5 with
        | none => ((st, c), .error .codeSpaceExhausted)
        | some code =>
          match dbInsertUrl st code normalized now with
          | .error e => ((st, c), .error (.dbErr e))
          | .ok (row, st1) =>
            let c1 := cacheSet c ("url:" ++ code) ⟨row.original_url, row.short_code⟩
            ((st1, c1), .ok ⟨row.short_code, row.original_url,
              baseUrl ++ "/" ++ row.short_code, some row.created_at, true⟩)

/-- The source-tagged object returned by `getOriginalUrl`. -/
structure ResolveResult where
  originalUrl : String
  shortCode : String
  source : String
deriving DecidableEq

/-- `getOriginalUrl(shortCode)`: cache get; on hit return immediately;
on miss `SELECT` by code, `null` when absent, otherwise repopulate the
cache and return the database-tagged result. -/
def getOriginalUrl (shortCode : String) :
    Store × Cache → (Store × Cache) × Option ResolveResult :=
  fun (st, c) =>
    match cacheGet c ("url:" ++ shortCode) with
    | some cached =>
      ((st, c), some ⟨cached.originalUrl, cached.shortCode, "cache"⟩)
    | none =>
      match findByCode st shortCode with
      | none => ((st, c), none)
      | some urlData =>
        let c1 := cacheSet c ("url:" ++ shortCode)
          ⟨urlData.original_url, urlData.short_code⟩
        ((st, c1), some ⟨urlData.original_url, urlData.short_code, "database"⟩)

/-- The cache-aside read protocol exactly as the spec words it
(section 4.4, resolve): 1. cache get on `"url:"+shortCode`; a hit returns
`{originalUrl, shortCode, source: "cache"}` immediately, without
consulting the store.  2. a miss falls back to `findByCode`; an absent
code returns not-found (`none`, distinct from any error — no error value
exists in this read's type); a present row repopulates the cache and
returns `{originalUrl, shortCode, source: "database"}`. -/
def resolveSpec (shortCode : String) (st : Store) (c : Cache) :
    (Store × Cache) × Option ResolveResult :=
  match cacheGet c ("url:" ++ shortCode) with
  | some hit => ((st, c), some ⟨hit.originalUrl, hit.shortCode, "cache"⟩)
  | none =>
    match findByCode st shortCode with
    | none => ((st, c), none)
    | some row =>
      ((st, cacheSet c ("url:" ++ shortCode) ⟨row.original_url, row.short_code⟩),
        some ⟨row.original_url, row.short_code, "database"⟩)

/-! ## Click accountant (`incrementClickCount`) -/

/-- The metadata object collected by the redirect route. -/
structure Metadata where
  ipAddress : Option String
  userAgent : Option String
  referrer : Option String
deriving DecidableEq

/-- Injected failures for the three operations inside the try block:
the `UPDATE urls`, the `INSERT INTO clicks`, and the `cache.incr`.
A `true` flag makes the corresponding call reject. -/
structure Faults where
  update : Bool
  insert : Bool
  incr : Bool
deriving DecidableEq

/-- The body of `incrementClickCount`'s try block.  An `.error` carries
the world state at the point of the throw; `.ok` is normal completion. -/
def incrementClickCountBody (code : String) (md : Metadata) (now : Nat)
    (f : Faults) (st : Store) (c : Cache) :
    Except (Store × Cache) (Store × Cache) :=
  if f.update then .error (st, c)
  else
    let st1 := updateUrlClicks st code now
    match (if truthy md.ipAddress || truthy md.userAgent then
             (if f.insert then .error (st1, c)
              else
                match dbInsertClick st1 code md.ipAddress md.userAgent md.referrer with
                | .ok st2 => .ok st2
                | .error _ => .error (st1, c))
           else .ok st1 : Except (Store × Cache) Store) with
    | .error sc => .error sc
    | .ok st2 =>
      if f.incr then .error (st2, c)
      else .ok (st2, cacheIncr c ("clicks:" ++ code))

/-- `incrementClickCount(shortCode, metadata)`: the try block wrapped in
the catch that logs and swallows every failure. -/
def incrementClickCount (code : String) (md : Metadata) (now : Nat)
    (f : Faults) (st : Store) (c : Cache) : Store × Cache :=
  match incrementClickCountBody code md now f st c with
  | .ok sc => sc
  | .error sc => sc

/-- The redirect route of server.js: resolve; on not-found stop with 404;
otherwise dispatch `incrementClickCount` (its own failures caught by the
route's `.catch`) and answer with the resolved result. -/
def handleRedirect (code : String) (md : Metadata) (now : Nat) (f : Faults) :
    Store × Cache → (Store × Cache) × Option ResolveResult :=
  fun sc =>
    let (sc1, res) := getOriginalUrl code sc
    match res with
    | none => (sc1, none)
    | some r => (incrementClickCount code md now f sc1.1 sc1.2, some r)

/-! ## `createShortUrl` against the database as an external oracle

Every `await db.query(...)` is a round trip to the PostgreSQL server;
between two round trips other clients may change the tables (the spec's
section 9 notes the collision check-then-insert is not atomic).  This
second translation of the same source therefore draws each query's
outcome from a response trace `resp : Nat → DbResp` indexed by the order
in which `createShortUrl` issues its queries, instead of deriving it from
a frozen local `Store`.  Rows are reduced to what the source consults. -/

/-- One database response: a row list, or a rejected promise. -/
inductive DbResp
  | rows : List UrlRow → DbResp
  | err : DbErr → DbResp

/-- A service error of the oracle model; `badResponse` marks a reply a
real PostgreSQL server never gives (an `INSERT ... RETURNING` with no
row), on which the source would crash reading `rows[0]`. -/
inductive SvcErrO
  | invalidUrl
  | codeSpaceExhausted
  | dbErr : DbErr → SvcErrO
  | badResponse
deriving DecidableEq

/-- The generation loop against the oracle: query number `q` is the
collision `SELECT` for code `gen i`; an error from `await` propagates;
an empty row list breaks out with the code; otherwise retry. -/
def codeSearchDb (gen : Nat → String) (resp : Nat → DbResp) :
    Nat → Nat → Nat → Except SvcErrO (String × Nat)
  | _, _, 0 => .error .codeSpaceExhausted
  | q, i, fuel + 1 =>
    let c := gen i
    match resp q with
    | .err e => .error (.dbErr e)
    | .rows [] => .ok (c, q + 1)
    | .rows (_ :: _) => codeSearchDb gen resp (q + 1) (i + 1) fuel

/-- `createShortUrl(originalUrl)` with the database as an oracle.
Query 0 is the dedup `SELECT` by URL; queries `1..` are the collision
checks; the query after a successful check is the `INSERT`.  Cache
writes do not influence the returned value and are elided here (the
state-transformer translation above carries them). -/
def createShortUrlDb (parseURL : String → Option UrlParts) (gen : Nat → String)
    (baseUrl : String) (resp : Nat → DbResp) (originalUrl : String) :
    Except SvcErrO CreateResult :=
  if !(isValidUrl parseURL originalUrl) then
    .error .invalidUrl
  else
    let _normalized := normalizeUrlS originalUrl
    match resp 0 with
    | .err e => .error (.dbErr e)
    | .rows (existing :: _) =>
      .ok ⟨existing.short_code, existing.original_url,
        baseUrl ++ "/" ++ existing.short_code, none, false⟩
    | .rows [] =>
      match codeSearchDb gen resp 1 0 5 with
      | .error e => .error e
      | .ok (_code, q) =>
        match resp q with
        | .err e => .error (.dbErr e)
        | .rows [] => .error .badResponse
        | .rows (row :: _) =>
          .ok ⟨row.short_code, row.original_url,
            baseUrl ++ "/" ++ row.short_code, some row.created_at, true⟩

/-! ## Helper lemmas -/

lemma b62Index_b62char_fin : ∀ i : Fin 62, b62Index (b62char i.val) = (i.val : Int) := by
  decide

lemma b62Index_b62char_mod (n : Nat) : b62Index (b62char (n % 62)) = ((n % 62 : Nat) : Int) :=
  b62Index_b62char_fin ⟨n % 62, Nat.mod_lt n (by decide)⟩

lemma encodeLoop_eq (n : Nat) (acc : List Char) :
    encodeLoop n acc =
      if n = 0 then acc else encodeLoop (n / 62) (b62char (n % 62) :: acc) := by
  rw [encodeLoop]
  split <;> rfl

lemma encodeLoop_append (n : Nat) :
    ∀ acc : List Char, encodeLoop n acc = encodeLoop n [] ++ acc := by
  induction n using Nat.strong_induction_on with
  | _ n ih =>
    intro acc
    by_cases h : n = 0
    · subst h
      simp [encodeLoop_eq]
    · have hlt : n / 62 < n := Nat.div_lt_self (Nat.pos_of_ne_zero h) (by decide)
      rw [encodeLoop_eq n acc, encodeLoop_eq n []]
      simp only [h, if_false]
      rw [ih _ hlt (b62char (n % 62) :: acc), ih _ hlt [b62char (n % 62)]]
      simp

lemma decode_encodeLoop (n : Nat) :
    ∀ a : Int,
      List.foldl (fun a c => a * 62 + b62Index c) a (encodeLoop n []) =
        a * 62 ^ (encodeLoop n []).length + n := by
  induction n using Nat.strong_induction_on with
  | _ n ih =>
    intro a
    by_cases h : n = 0
    · subst h
      simp [encodeLoop_eq]
    · have hlt : n / 62 < n := Nat.div_lt_self (Nat.pos_of_ne_zero h) (by decide)
      rw [encodeLoop_eq n []]
      simp only [h, if_false]
      rw [encodeLoop_append (n / 62) [b62char (n % 62)]]
      rw [List.foldl_append, ih _ hlt a]
      have h2 : (62 : Int) * ((n / 62 : Nat) : Int) + ((n % 62 : Nat) : Int) = (n : Int) := by
        exact_mod_cast Nat.div_add_mod n 62
      simp only [List.foldl_cons, List.foldl_nil, List.length_append, List.length_cons,
        List.length_nil, b62Index_b62char_mod]
      rw [pow_succ]
      ring_nf
      linear_combination h2

/-! ## Claims about the code generator -/

/-- C3: for every natural number `n`, `decodeBase62 (encodeBase62 n) = n`
(exact, arbitrary-precision base-62, most-significant symbol first), and
`encodeBase62 0 = "0"`. -/
theorem c3_decode_encode_base62 (n : Nat) :
    decodeBase62 (encodeBase62 n) = (n : Int) ∧ encodeBase62 0 = "0".data := by
  refine ⟨?_, by decide⟩
  by_cases h : n = 0
  · subst h
    decide
  · unfold decodeBase62 encodeBase62
    simp only [h, if_false]
    rw [decode_encodeLoop n 0]
    simp

/-- C8: `generateShortCode` yields exactly one symbol per random byte —
a code of exactly the requested length — and every symbol is drawn from
the 62-symbol alphabet. -/
theorem c8_generateShortCode_length_alphabet (bytes : List Nat) :
    (generateShortCode bytes).length = bytes.length ∧
      ∀ ch ∈ generateShortCode bytes, ch ∈ BASE62_CHARS := by
  constructor
  · simp [generateShortCode]
  · intro ch hch
    simp only [generateShortCode, List.mem_map] at hch
    obtain ⟨b, _, rfl⟩ := hch
    exact List.get_mem _ _ _

/-- C10: `isValidUrl` is total: it returns a boolean for every input,
and whenever the platform URL parse fails (the thrown error is the
parser's `none` result), the caught branch returns `false`. -/
theorem c10_isValidUrl_total (parseURL : String → Option UrlParts) (url : String) :
    (isValidUrl parseURL url = true ∨ isValidUrl parseURL url = false) ∧
      (parseURL url = none → isValidUrl parseURL url = false) := by
  constructor
  · cases isValidUrl parseURL url
    · exact Or.inr rfl
    · exact Or.inl rfl
  · intro h
    simp [isValidUrl, h]

theorem c10_isValidUrl_total_witness :
    ((fun _ : String => (none : Option UrlParts)) "not a url" = none) ∧
      isValidUrl (fun _ => none) "not a url" = false :=
  ⟨rfl, (c10_isValidUrl_total (fun _ => none) "not a url").2 rfl⟩

/-! ## Claims about the resolve path -/

/-- C5: `getOriginalUrl` coincides, for every short code, store and
cache state, with the cache-aside read protocol as the spec words it:
hit → cache-tagged result with no store access, miss and absent →
not-found (`none`, not an error), miss and present → repopulate and
database-tagged result. -/
theorem c5_getOriginalUrl_cache_aside (shortCode : String) (st : Store) (c : Cache) :
    getOriginalUrl shortCode (st, c) = resolveSpec shortCode st c := by
  unfold getOriginalUrl resolveSpec
  rfl

/-- C9: a resolve never modifies the durable store: for every starting
state the store component after `getOriginalUrl` is the store before it
(only the cache may gain a repopulating entry). -/
theorem c9_getOriginalUrl_store_frame (shortCode : String) (st : Store) (c : Cache) :
    ((getOriginalUrl shortCode (st, c)).1).1 = st := by
  unfold getOriginalUrl
  cases hc : cacheGet c ("url:" ++ shortCode) <;> simp only [hc]
  · cases hf : findByCode st shortCode <;> simp [hf]

/-! ## Normalization: helper lemmas for claim C2 -/

lemma https_data : "https://".data = ['h', 't', 't', 'p', 's', ':', '/', '/'] := rfl

lemma http_data : "http://".data = ['h', 't', 't', 'p', ':', '/', '/'] := rfl

lemma ciEq_self (c : Char) : ciEq c c = true := by
  simp [ciEq]

lemma startsCI_refl_append (p r : List Char) : startsCI p (p ++ r) = true := by
  induction p with
  | nil => rfl
  | cons a p ih => simp [startsCI, ciEq_self, ih]

lemma ciEq_colon {c : Char} (h : ciEq ':' c = true) : c = ':' := by
  have hu : ':'.toUpper = ':' := by decide
  simp only [ciEq, hu, Bool.or_self, beq_iff_eq] at h
  exact h

lemma ciEq_slash {c : Char} (h : ciEq '/' c = true) : c = '/' := by
  have hu : '/'.toUpper = '/' := by decide
  simp only [ciEq, hu, Bool.or_self, beq_iff_eq] at h
  exact h

lemma ciEq_h_cases {c : Char} (h : ciEq 'h' c = true) : c = 'h' ∨ c = 'H' := by
  have hu : 'h'.toUpper = 'H' := by decide
  simp only [ciEq, hu, Bool.or_eq_true, beq_iff_eq] at h
  exact h

lemma startsCI_https_shape {w : List Char} (h : startsCI "https://".data w = true) :
    ∃ a b c d e r, w = a :: b :: c :: d :: e :: ':' :: '/' :: '/' :: r ∧
      ciEq 'h' a = true ∧ ciEq 't' b = true ∧ ciEq 't' c = true ∧
      ciEq 'p' d = true ∧ ciEq 's' e = true := by
  rw [https_data] at h
  rcases w with _ | ⟨a, _ | ⟨b, _ | ⟨c, _ | ⟨d, _ | ⟨e, _ | ⟨f, _ | ⟨g, _ | ⟨k, r⟩⟩⟩⟩⟩⟩⟩⟩ <;>
    simp [startsCI] at h
  obtain ⟨h1, h2, h3, h4, h5, h6, h7, h8⟩ := h
  exact ⟨a, b, c, d, e, r, by rw [ciEq_colon h6, ciEq_slash h7, ciEq_slash h8],
    h1, h2, h3, h4, h5⟩

lemma startsCI_http_shape {w : List Char} (h : startsCI "http://".data w = true) :
    ∃ a b c d r, w = a :: b :: c :: d :: ':' :: '/' :: '/' :: r ∧
      ciEq 'h' a = true ∧ ciEq 't' b = true ∧ ciEq 't' c = true ∧
      ciEq 'p' d = true := by
  rw [http_data] at h
  rcases w with _ | ⟨a, _ | ⟨b, _ | ⟨c, _ | ⟨d, _ | ⟨e, _ | ⟨f, _ | ⟨g, r⟩⟩⟩⟩⟩⟩⟩ <;>
    simp [startsCI] at h
  obtain ⟨h1, h2, h3, h4, h5, h6, h7⟩ := h
  exact ⟨a, b, c, d, r, by rw [ciEq_colon h5, ciEq_slash h6, ciEq_slash h7],
    h1, h2, h3, h4⟩

lemma hasProtocol_norm_core (t : List Char) :
    hasProtocol (if hasProtocol t then t else ("https://".data ++ t)) = true := by
  by_cases hp : hasProtocol t = true
  · rw [if_pos hp]
    exact hp
  · rw [if_neg hp]
    simp only [hasProtocol, Bool.or_eq_true]
    right
    exact startsCI_refl_append "https://".data t

lemma hasProtocol_stripSlash {n : List Char} (hp : hasProtocol n = true)
    (hne : (stripSlash n).getLast? ≠ some '/') :
    hasProtocol (stripSlash n) = true := by
  have hss : stripSlash n = if n.getLast? == some '/' then n.dropLast else n := rfl
  by_cases hl : (n.getLast? == some '/') = true
  · rw [hss, if_pos hl] at hne ⊢
    simp only [hasProtocol, Bool.or_eq_true] at hp
    rcases hp with hp | hp
    · obtain ⟨a, b, c, d, r, rfl, f1, f2, f3, f4⟩ := startsCI_http_shape hp
      cases r with
      | nil =>
        exact absurd (by simp [List.dropLast]) hne
      | cons x r =>
        simp only [List.dropLast]
        simp [hasProtocol, http_data, startsCI, f1, f2, f3, f4, ciEq_self]
    · obtain ⟨a, b, c, d, e, r, rfl, f1, f2, f3, f4, f5⟩ := startsCI_https_shape hp
      cases r with
      | nil =>
        exact absurd (by simp [List.dropLast]) hne
      | cons x r =>
        simp only [List.dropLast]
        simp [hasProtocol, https_data, startsCI, f1, f2, f3, f4, f5, ciEq_self]
  · rw [hss, if_neg hl]
    exact hp

lemma dropWhile_self {l : List Char} (h : ∀ ch, l.head? = some ch → wsp ch = false) :
    l.dropWhile wsp = l := by
  cases l with
  | nil => rfl
  | cons a l =>
    rw [List.dropWhile_cons, h a rfl]
    simp

lemma trimChars_self {l : List Char} (h1 : ∀ ch, l.head? = some ch → wsp ch = false)
    (h2 : ∀ ch, l.getLast? = some ch → wsp ch = false) : trimChars l = l := by
  unfold trimChars
  rw [dropWhile_self h1]
  have h2' : ∀ ch, l.reverse.head? = some ch → wsp ch = false := by
    intro ch hch
    exact h2 ch (by rwa [List.head?_reverse] at hch)
  rw [dropWhile_self h2', List.reverse_reverse]

lemma normalizeUrl_eq (u : List Char) :
    normalizeUrl u =
      stripSlash (if hasProtocol (trimChars u) then trimChars u
        else ("https://".data ++ trimChars u)) := rfl

/-! ## Claim C2: idempotence of normalization -/

/-- C2 counterexample: `normalizeUrl` strips only a single trailing
slash, so on `"https://x//"` a second application strips one more:
`normalize("https://x//") = "https://x/"` but
`normalize("https://x/") = "https://x"` — the claimed idempotence fails. -/
theorem c2_normalize_not_idempotent :
    normalizeUrl (normalizeUrl "https://x//".data) ≠
      normalizeUrl "https://x//".data := by
  decide

/-- C2 amended: `normalizeUrl` is idempotent on every input whose
normalized form does not end in a slash (a second application would
strip it) or a whitespace character (a second application would trim
it); on such inputs the normalized form is a fixed point. -/
theorem c2_normalize_idempotent_amended (u : List Char)
    (h : (normalizeUrl u).getLast?.all (fun ch => !(ch == '/') && !wsp ch) = true) :
    normalizeUrl (normalizeUrl u) = normalizeUrl u := by
  rw [normalizeUrl_eq u] at h ⊢
  set n := (if hasProtocol (trimChars u) then trimChars u
    else ("https://".data ++ trimChars u)) with hn
  have hcore : hasProtocol n = true := hasProtocol_norm_core (trimChars u)
  have hne : (stripSlash n).getLast? ≠ some '/' := by
    intro heq
    rw [heq] at h
    simp at h
  have hlastw : ∀ ch, (stripSlash n).getLast? = some ch → wsp ch = false := by
    intro ch hch
    rw [hch] at h
    simp [Option.all] at h
    exact h.2
  have hproto : hasProtocol (stripSlash n) = true := hasProtocol_stripSlash hcore hne
  have hhead : ∀ ch, (stripSlash n).head? = some ch → wsp ch = false := by
    intro ch hch
    simp only [hasProtocol, Bool.or_eq_true] at hproto
    rcases hproto with hp | hp
    · obtain ⟨a, b, c, d, r, he, f1, -, -, -⟩ := startsCI_http_shape hp
      rw [he] at hch
      simp only [List.head?_cons, Option.some.injEq] at hch
      subst hch
      rcases ciEq_h_cases f1 with rfl | rfl <;> decide
    · obtain ⟨a, b, c, d, e, r, he, f1, -, -, -, -⟩ := startsCI_https_shape hp
      rw [he] at hch
      simp only [List.head?_cons, Option.some.injEq] at hch
      subst hch
      rcases ciEq_h_cases f1 with rfl | rfl <;> decide
  rw [normalizeUrl_eq, trimChars_self hhead hlastw, hproto, if_pos rfl]
  have hfalse : ((stripSlash n).getLast? == some '/') = false := by
    cases hg : (stripSlash n).getLast? with
    | none => rfl
    | some ch =>
      simp only [beq_eq_false_iff_ne, ne_eq, Option.some.injEq]
      intro hch
      exact hne (by rw [hg, hch])
  show stripSlash (stripSlash n) = stripSlash n
  rw [stripSlash, hfalse]
  simp

theorem c2_normalize_idempotent_amended_witness :
    ((normalizeUrl "  example.com/a  ".data).getLast?.all
      (fun ch => !(ch == '/') && !wsp ch) = true) ∧
      normalizeUrl (normalizeUrl "  example.com/a  ".data) =
        normalizeUrl "  example.com/a  ".data :=
  ⟨by decide, c2_normalize_idempotent_amended "  example.com/a  ".data (by decide)⟩

/-! ## Click accountant: helper lemmas and claims C4, C7 -/

/-- The authoritative click count of a code, as read from the store. -/
def clickCountOf (st : Store) (code : String) : Option Nat :=
  (findByCode st code).map (fun r => r.click_count)

/-- The `last_accessed` column of a code, as read from the store. -/
def lastAccessedOf (st : Store) (code : String) : Option (Option Nat) :=
  (findByCode st code).map (fun r => r.last_accessed)

lemma touchRow_short_code (code : String) (now : Nat) (r : UrlRow) :
    (touchRow code now r).short_code = r.short_code := by
  unfold touchRow
  split <;> rfl

lemma find?_map_touch (code : String) (now : Nat) (l : List UrlRow) :
    (l.map (touchRow code now)).find? (fun r => r.short_code == code) =
      (l.find? (fun r => r.short_code == code)).map (touchRow code now) := by
  induction l with
  | nil => rfl
  | cons r l ih =>
    simp only [List.map_cons, List.find?_cons, touchRow_short_code]
    cases hr : r.short_code == code
    · simpa [hr] using ih
    · simp [hr]

lemma any_map_touch (code : String) (now : Nat) (l : List UrlRow) :
    (l.map (touchRow code now)).any (fun r => r.short_code == code) =
      l.any (fun r => r.short_code == code) := by
  induction l with
  | nil => rfl
  | cons r l ih =>
    simp only [List.map_cons, List.any_cons, touchRow_short_code, ih]

lemma counterGet_cacheIncr (c : Cache) (k : String) :
    counterGet (cacheIncr c k) k = some ((counterGet c k).getD 0 + 1) := by
  unfold cacheIncr
  cases h : counterGet c k <;>
    simp [h, counterGet, List.find?_cons, BEq.refl]

/-- C4 counterexample: the click-row insert is guarded by
`if (metadata.ipAddress || metadata.userAgent)` only; with a present
referrer but no ip and no user agent, no ClickEvent row is inserted —
while the claim requires one whenever any of the three fields is
present. -/
theorem c4_referrer_only_no_click_row :
    truthy (Metadata.mk none none (some "https://ref.example")).referrer = true ∧
      ((incrementClickCount "abc" ⟨none, none, some "https://ref.example"⟩ 7
          ⟨false, false, false⟩
          ⟨[⟨1, "abc", "https://a.example", 0, 0, none⟩], [], 2⟩
          ⟨[], []⟩).1).clicks = [] := by
  decide

/-- C4 amended: with no injected failures and the short code present in
the store, the record operation inserts a ClickEvent row exactly when
`ipAddress` or `userAgent` is truthy (a referrer alone does not trigger
the insert), and it always increments the authoritative click count,
refreshes `last_accessed`, and increments the ephemeral cache counter. -/
theorem c4_incrementClickCount_amended (code : String) (md : Metadata) (now : Nat)
    (st : Store) (c : Cache)
    (h : st.urls.any (fun r => r.short_code == code) = true) :
    (((truthy md.ipAddress || truthy md.userAgent) = true →
        ((incrementClickCount code md now ⟨false, false, false⟩ st c).1).clicks =
          st.clicks ++ [⟨code, orNull md.ipAddress, orNull md.userAgent, orNull md.referrer⟩]) ∧
      ((truthy md.ipAddress || truthy md.userAgent) = false →
        ((incrementClickCount code md now ⟨false, false, false⟩ st c).1).clicks = st.clicks)) ∧
      clickCountOf ((incrementClickCount code md now ⟨false, false, false⟩ st c).1) code =
        (clickCountOf st code).map (fun k => k + 1) ∧
      lastAccessedOf ((incrementClickCount code md now ⟨false, false, false⟩ st c).1) code =
        some (some now) ∧
      counterGet ((incrementClickCount code md now ⟨false, false, false⟩ st c).2)
          ("clicks:" ++ code) =
        some ((counterGet c ("clicks:" ++ code)).getD 0 + 1) := by
  have hmem : ((st.urls.map (touchRow code now)).any (fun r => r.short_code == code)) = true := by
    rw [any_map_touch]
    exact h
  have hsome : (st.urls.find? (fun r => r.short_code == code)).isSome := by
    rw [List.find?_isSome]
    obtain ⟨r, hrmem, hr⟩ := List.any_eq_true.mp h
    exact ⟨r, hrmem, hr⟩
  obtain ⟨r0, hfind⟩ := Option.isSome_iff_exists.mp hsome
  have hp0 : (r0.short_code == code) = true := by
    have := List.find?_some hfind
    simpa using this
  have hurls : ((incrementClickCount code md now ⟨false, false, false⟩ st c).1).urls =
      st.urls.map (touchRow code now) := by
    unfold incrementClickCount incrementClickCountBody updateUrlClicks dbInsertClick
    cases hcond : truthy md.ipAddress || truthy md.userAgent <;> simp [hcond, hmem]
  have hclicks : ((incrementClickCount code md now ⟨false, false, false⟩ st c).1).clicks =
      (if (truthy md.ipAddress || truthy md.userAgent) = true then
        st.clicks ++ [⟨code, orNull md.ipAddress, orNull md.userAgent, orNull md.referrer⟩]
      else st.clicks) := by
    unfold incrementClickCount incrementClickCountBody updateUrlClicks dbInsertClick
    cases hcond : truthy md.ipAddress || truthy md.userAgent <;> simp [hcond, hmem]
  have hcache : (incrementClickCount code md now ⟨false, false, false⟩ st c).2 =
      cacheIncr c ("clicks:" ++ code) := by
    unfold incrementClickCount incrementClickCountBody updateUrlClicks dbInsertClick
    cases hcond : truthy md.ipAddress || truthy md.userAgent <;> simp [hcond, hmem]
  refine ⟨⟨fun hc => ?_, fun hc => ?_⟩, ?_, ?_, ?_⟩
  · rw [hclicks, if_pos hc]
  · rw [hclicks, hc]
    simp
  · unfold clickCountOf findByCode
    rw [hurls, find?_map_touch, hfind]
    simp [touchRow, hp0]
  · unfold lastAccessedOf findByCode
    rw [hurls, find?_map_touch, hfind]
    simp [touchRow, hp0]
  · rw [hcache, counterGet_cacheIncr]

theorem c4_incrementClickCount_amended_witness :
    ((⟨[⟨1, "abc", "https://a.example", 0, 3, none⟩], [], 2⟩ : Store).urls.any
        (fun r => r.short_code == "abc") = true) ∧
      clickCountOf ((incrementClickCount "abc" ⟨some "1.2.3.4", none, none⟩ 9
          ⟨false, false, false⟩ ⟨[⟨1, "abc", "https://a.example", 0, 3, none⟩], [], 2⟩
          ⟨[], []⟩).1) "abc" =
        (clickCountOf ⟨[⟨1, "abc", "https://a.example", 0, 3, none⟩], [], 2⟩ "abc").map
          (fun k => k + 1) :=
  ⟨by decide, (c4_incrementClickCount_amended "abc" ⟨some "1.2.3.4", none, none⟩ 9
    ⟨[⟨1, "abc", "https://a.example", 0, 3, none⟩], [], 2⟩ ⟨[], []⟩ (by decide)).2.1⟩

/-- C7: the record operation never raises to its caller: for every
injected combination of store-update, click-insert and cache-increment
failures, the redirect path completes with exactly the result the
resolve produced — click accounting cannot change or destroy it. -/
theorem c7_click_accounting_never_blocks_redirect (code : String) (md : Metadata)
    (now : Nat) (f : Faults) (sc : Store × Cache) :
    (handleRedirect code md now f sc).2 = (getOriginalUrl code sc).2 := by
  unfold handleRedirect
  cases hres : (getOriginalUrl code sc).2 with
  | none => simp [hres]
  | some r => simp [hres]

/-! ## Creation: helper lemmas and claims C6, C1 -/

lemma codeSearch_exhausted (gen : Nat → String) (st : Store) :
    ∀ fuel i, (∀ k < fuel, st.urls.any (fun r => r.short_code == gen (i + k)) = true) →
      codeSearch gen st i fuel = none := by
  intro fuel
  induction fuel with
  | zero => intro i _; rfl
  | succ fuel ih =>
    intro i hcoll
    have h0 : st.urls.any (fun r => r.short_code == gen i) = true := by
      have := hcoll 0 (Nat.succ_pos fuel)
      simpa using this
    unfold codeSearch
    rw [h0]
    simp only [if_true]
    apply ih
    intro k hk
    have := hcoll (k + 1) (Nat.succ_lt_succ hk)
    rwa [show i + (k + 1) = i + 1 + k by omega] at this

lemma codeSearch_first_free (gen : Nat → String) (st : Store) :
    ∀ fuel i j, j < fuel →
      (∀ k < j, st.urls.any (fun r => r.short_code == gen (i + k)) = true) →
      st.urls.any (fun r => r.short_code == gen (i + j)) = false →
      codeSearch gen st i fuel = some (gen (i + j)) := by
  intro fuel
  induction fuel with
  | zero => intro i j hj; omega
  | succ fuel ih =>
    intro i j hj hcoll hfree
    cases j with
    | zero =>
      simp only [Nat.add_zero] at hfree
      unfold codeSearch
      rw [hfree]
      simp
    | succ j =>
      have h0 : st.urls.any (fun r => r.short_code == gen i) = true := by
        have := hcoll 0 (Nat.succ_pos j)
        simpa using this
      unfold codeSearch
      rw [h0]
      simp only [if_true]
      rw [show i + (j + 1) = i + 1 + j by omega]
      apply ih (i + 1) j (Nat.lt_of_succ_lt_succ hj)
      · intro k hk
        have := hcoll (k + 1) (Nat.succ_lt_succ hk)
        rwa [show i + (k + 1) = i + 1 + k by omega] at this
      · rwa [show i + 1 + j = i + (j + 1) by omega]

lemma codeSearch_free (gen : Nat → String) (st : Store) :
    ∀ fuel i code, codeSearch gen st i fuel = some code →
      st.urls.any (fun r => r.short_code == code) = false := by
  intro fuel
  induction fuel with
  | zero => intro i code h; exact absurd h (by simp [codeSearch])
  | succ fuel ih =>
    intro i code h
    unfold codeSearch at h
    cases hc : st.urls.any (fun r => r.short_code == gen i)
    · rw [hc] at h
      simp only [Bool.false_eq_true, if_false, Option.some.injEq] at h
      rwa [h] at hc
    · rw [hc] at h
      simp only [if_true] at h
      exact ih (i + 1) code h

/-- C6: for a valid URL with no existing mapping, exhausting the fixed
bound — all five generated codes already present — fails with the
code-space-exhausted error and leaves store and cache exactly as they
were (no new mapping persisted); while if some generated code is free
before the bound, creation succeeds with the first free code — a code
outside the collision set — and persists exactly that mapping. -/
theorem c6_collision_retry_bound (parseURL : String → Option UrlParts)
    (gen : Nat → String) (baseUrl : String) (now : Nat) (url : String)
    (st : Store) (c : Cache)
    (hvalid : isValidUrl parseURL url = true)
    (hdedup : findByUrl st (normalizeUrlS url) = none) :
    ((∀ i < 5, st.urls.any (fun r => r.short_code == gen i) = true) →
        createShortUrl parseURL gen baseUrl now url (st, c) =
          ((st, c), .error .codeSpaceExhausted)) ∧
      (∀ i0, i0 < 5 →
        (∀ j < i0, st.urls.any (fun r => r.short_code == gen j) = true) →
        st.urls.any (fun r => r.short_code == gen i0) = false →
        ((createShortUrl parseURL gen baseUrl now url (st, c)).2 =
            .ok ⟨gen i0, normalizeUrlS url, baseUrl ++ "/" ++ gen i0, some now, true⟩ ∧
          (((createShortUrl parseURL gen baseUrl now url (st, c)).1).1).urls =
            st.urls ++ [⟨st.nextId, gen i0, normalizeUrlS url, now, 0, none⟩])) := by
  constructor
  · intro hcoll
    have hcs : codeSearch gen st 0 5 = none := by
      apply codeSearch_exhausted gen st 5 0
      intro k hk
      simpa using hcoll k hk
    unfold createShortUrl
    simp [hvalid, hdedup, hcs]
  · intro i0 hi0 hcoll hfree
    have hcs : codeSearch gen st 0 5 = some (gen i0) := by
      have := codeSearch_first_free gen st 5 0 i0 hi0
        (by intro k hk; simpa using hcoll k hk) (by simpa using hfree)
      simpa using this
    have hins : dbInsertUrl st (gen i0) (normalizeUrlS url) now =
        .ok (⟨st.nextId, gen i0, normalizeUrlS url, now, 0, none⟩,
          { st with
              urls := st.urls ++ [⟨st.nextId, gen i0, normalizeUrlS url, now, 0, none⟩],
              nextId := st.nextId + 1 }) := by
      unfold dbInsertUrl
      rw [hfree]
      simp
    constructor
    · unfold createShortUrl
      simp [hvalid, hdedup, hcs, hins]
    · unfold createShortUrl
      simp [hvalid, hdedup, hcs, hins]

theorem c6_collision_retry_bound_witness :
    isValidUrl (fun _ => some ⟨"https:"⟩) "https://e.example" = true ∧
      findByUrl ⟨[⟨1, "A", "https://other.example", 0, 0, none⟩,
          ⟨2, "B", "https://other2.example", 0, 0, none⟩], [], 3⟩
        (normalizeUrlS "https://e.example") = none ∧
      (createShortUrl (fun _ => some ⟨"https:"⟩)
          (fun i => if i = 0 then "A" else if i = 1 then "B" else "C")
          "http://sho.rt" 7 "https://e.example"
          (⟨[⟨1, "A", "https://other.example", 0, 0, none⟩,
              ⟨2, "B", "https://other2.example", 0, 0, none⟩], [], 3⟩, ⟨[], []⟩)).2 =
        .ok ⟨"C", normalizeUrlS "https://e.example",
          "http://sho.rt" ++ "/" ++ "C", some 7, true⟩ := by
  refine ⟨by decide, by decide, ?_⟩
  exact ((c6_collision_retry_bound (fun _ => some ⟨"https:"⟩)
    (fun i => if i = 0 then "A" else if i = 1 then "B" else "C")
    "http://sho.rt" 7 "https://e.example"
    ⟨[⟨1, "A", "https://other.example", 0, 0, none⟩,
      ⟨2, "B", "https://other2.example", 0, 0, none⟩], [], 3⟩ ⟨[], []⟩
    (by decide) (by decide)).2 2 (by decide) (by decide) (by decide)).1

/-- C1 counterexample (database as oracle): the dedup query finds no
mapping, the first collision check reports the generated code free, and
the `INSERT` itself then rejects with a constraint violation — as
happens when a concurrent client takes the code between check and
insert.  The violation propagates to the caller: `createShortUrl` has no
catch around the insert, and no retry happens.  This falsifies the
claim that an insert-raised ConstraintViolation is recovered by retry
and never surfaced. -/
theorem c1_insert_constraint_violation_surfaced :
    createShortUrlDb (fun _ => some ⟨"https:"⟩) (fun _ => "A") "http://sho.rt"
      (fun q => if q = 0 then .rows [] else if q = 1 then .rows []
        else .err .constraintViolation) "https://e.example" =
      .error (.dbErr .constraintViolation) := by
  rfl

/-- C1 amended: the retry loop is driven by the pre-insert existence
`SELECT`, not by catching insert errors; in a sequential execution (the
state-transformer translation, where the insert sees the state the
check saw) the insert never raises, so the only errors `createShortUrl`
can surface are invalid-URL and code-space-exhausted — in particular
never a ConstraintViolation. -/
theorem c1_no_constraint_violation_sequential (parseURL : String → Option UrlParts)
    (gen : Nat → String) (baseUrl : String) (now : Nat) (url : String)
    (st : Store) (c : Cache) (e : SvcErr)
    (h : (createShortUrl parseURL gen baseUrl now url (st, c)).2 = .error e) :
    e = .invalidUrl ∨ e = .codeSpaceExhausted := by
  unfold createShortUrl at h
  by_cases hv : isValidUrl parseURL url = true
  · simp only [hv, Bool.not_true, Bool.false_eq_true, if_false] at h
    cases hfu : findByUrl st (normalizeUrlS url) with
    | some ex =>
      rw [hfu] at h
      simp at h
    | none =>
      rw [hfu] at h
      cases hcs : codeSearch gen st 0 5 with
      | none =>
        rw [hcs] at h
        simp only at h
        exact Or.inr (Except.error.inj h).symm
      | some code =>
        rw [hcs] at h
        have hfree := codeSearch_free gen st 5 0 code hcs
        simp only [dbInsertUrl, hfree, Bool.false_eq_true, if_false] at h
        simp at h
  · simp only [Bool.not_eq_true] at hv
    rw [hv] at h
    simp only [Bool.not_false, if_true] at h
    exact Or.inl (Except.error.inj h).symm

theorem c1_no_constraint_violation_sequential_witness :
    ((createShortUrl (fun _ => none) (fun _ => "A") "http://sho.rt" 0 "nope"
        (⟨[], [], 1⟩, ⟨[], []⟩)).2 = .error SvcErr.invalidUrl) ∧
      (SvcErr.invalidUrl = SvcErr.invalidUrl ∨
        SvcErr.invalidUrl = SvcErr.codeSpaceExhausted) :=
  ⟨rfl, c1_no_constraint_violation_sequential (fun _ => none) (fun _ => "A")
    "http://sho.rt" 0 "nope" ⟨[], [], 1⟩ ⟨[], []⟩ SvcErr.invalidUrl rfl⟩

end UrlShortener
